import Mathlib

/-!
Verification development for the MCIntegrator++ Monte Carlo integration core.

The definitions below are a shallow embedding of the C++ sources:
  * `src/src/MCIntegrator.cpp`            (class `mci::MCI`)
  * `src/include/mci/AccumulatorInterface.hpp`
  * `src/include/mci/ProtoFunctionInterface.hpp`

C++ `double` values are modelled as exact rationals `ℚ` (no rounding),
signed machine integers (`int`, `int64_t`) as `ℤ`, and the virtual calls
into components whose implementation lives in other translation units
(trial moves, domains, sampling-function container, accumulators) as
parameter functions, so every theorem quantifies over all conforming
implementations of those interfaces.
-/

namespace mci

/-! ## Walker state and proto-values

Modelled from the spec: the file `WalkerState.hpp` is not under `src/`.
The spec describes the walker as the `ndim`-vectors `xold` (last accepted
position) and `xnew` (proposed), a `changedIdx` list with counter
`nchanged`, and an `accepted` flag; on commit the walker records
`xold ← xnew`, on rollback `xnew ← xold`, and after either branch
`nchanged == 0` (spec sections 3 and 4.3 step 6). -/
structure WalkerState where
  xold : List ℚ
  xnew : List ℚ
  changedIdx : List ℕ
  nchanged : ℕ
  accepted : Bool

/-- Commit of the walker: record `xold ← xnew`, reset the change count. -/
def WalkerState.newToOld (w : WalkerState) : WalkerState :=
  { w with xold := w.xnew, nchanged := 0 }

/-- Rollback of the walker: record `xnew ← xold`, reset the change count. -/
def WalkerState.oldToNew (w : WalkerState) : WalkerState :=
  { w with xnew := w.xold, nchanged := 0 }

/-- Proto-value pair of a proto function: parallel buffers `protonew` and
`protoold` of length `nproto` (`ProtoFunctionInterface.hpp`). -/
structure ProtoState where
  protonew : List ℚ
  protoold : List ℚ

/-- Commit of a proto-function carrier: copy new proto-values to old
(doc of `ProtoFunctionInterface::newToOld` in the header under `src/`). -/
def ProtoState.newToOld (p : ProtoState) : ProtoState :=
  { p with protoold := p.protonew }

/-- Rollback of a proto-function carrier.
Modelled from the spec: the body of `oldToNew` lives in the derived
interfaces, which are not under `src/`; the spec (section 3) says
`oldToNew()` copies old → new. -/
def ProtoState.oldToNew (p : ProtoState) : ProtoState :=
  { p with protonew := p.protoold }

/-- Aggregate engine state touched by one sampling step of `MCI`:
the walker, the proto-values of the sampling-function container
(`_pdfcont`) and of the trial move (`_trialMove`), and the running
acceptance/rejection counters. -/
structure StepState where
  wlk : WalkerState
  pdfProto : ProtoState
  moveProto : ProtoState
  acc : ℕ
  rej : ℕ

/-- Environment of virtual calls made by `MCI::doStepMRT2` and
`MCI::doStepRandom`; each field abstracts a component implemented
outside `MCIntegrator.cpp`. -/
structure StepEnv where
  ndim : ℕ
  /-- `_trialMove->computeTrialMove(_wlkstate)`: proposes `xnew` from
  `xold`, updates `nchanged`/`changedIdx` and the move's new
  proto-values, and returns the move acceptance factor. -/
  computeTrialMove : WalkerState → ProtoState → WalkerState × ProtoState × ℚ
  /-- `_domain->applyDomain(_wlkstate)`: selective boundary application. -/
  applyDomainSel : WalkerState → WalkerState
  /-- `_domain->applyDomain(_wlkstate.xnew)`: full boundary application. -/
  applyDomainFull : List ℚ → List ℚ
  /-- `_pdfcont.computeAcceptance(_wlkstate)`: updates the container's new
  proto-values and returns the sampling-function acceptance factor. -/
  computeAcceptance : WalkerState → ProtoState → ProtoState × ℚ
  /-- `_domain->scaleToDomain(...)` composed with the raw uniform draws
  filled into `xnew` by `doStepRandom`. -/
  randomScaledDraws : List ℚ
  /-- Uniform variate `_rd(_rgen)` used for the acceptance test. -/
  u : ℚ

/-- One Metropolis (MRT2) step, `MCI::doStepMRT2` in `MCIntegrator.cpp`:
propose a move, apply the domain (selective iff `nchanged < ndim`),
compute the sampling-function acceptance, draw `u` and accept iff
`u ≤ pdfAcc * moveAcc`, bump the counters, then commit (`newToOld`) on
acceptance or roll back (`oldToNew`) on rejection. -/
def doStepMRT2 (env : StepEnv) (s : StepState) : StepState :=
  let tm := env.computeTrialMove s.wlk s.moveProto
  let w1 := tm.1
  let moveProto1 := tm.2.1
  let moveAcc := tm.2.2
  let w2 := if w1.nchanged < env.ndim then env.applyDomainSel w1
            else { w1 with xnew := env.applyDomainFull w1.xnew }
  let pa := env.computeAcceptance w2 s.pdfProto
  let pdfProto1 := pa.1
  let pdfAcc := pa.2
  let isAcc : Bool := decide (env.u ≤ pdfAcc * moveAcc)
  let w3 := { w2 with accepted := isAcc }
  if isAcc then
    { wlk := w3.newToOld
      pdfProto := pdfProto1.newToOld
      moveProto := moveProto1.newToOld
      acc := s.acc + 1
      rej := s.rej }
  else
    { wlk := w3.oldToNew
      pdfProto := pdfProto1.oldToNew
      moveProto := moveProto1.oldToNew
      acc := s.acc
      rej := s.rej + 1 }

/-- One uniform random step, `MCI::doStepRandom` in `MCIntegrator.cpp`:
fill `xnew` with scaled uniform draws, mark all coordinates changed,
force acceptance, and commit with `newToOld`; the proto-function
carriers are not touched. -/
def doStepRandom (env : StepEnv) (s : StepState) : StepState :=
  let w1 := { s.wlk with xnew := env.randomScaledDraws
                         nchanged := env.ndim
                         accepted := true }
  { s with wlk := w1.newToOld, acc := s.acc + 1 }

/-- Quiescence invariant claimed after every completed sampling step:
no pending changes, the walker buffers agree, and each proto-function
carrier has equal new and old buffers. -/
def stepInvariant (s : StepState) : Prop :=
  s.wlk.nchanged = 0 ∧ s.wlk.xnew = s.wlk.xold ∧
    s.pdfProto.protonew = s.pdfProto.protoold ∧
    s.moveProto.protonew = s.moveProto.protoold

instance (s : StepState) : Decidable (stepInvariant s) := by
  unfold stepInvariant; infer_instance

/-- C1: after every completed sampling step — an accepted MRT2 step, a
rejected MRT2 step, or a forced-accept uniform random step — the walker
satisfies `nchanged = 0` with `xnew = xold` componentwise, and every
proto-function carrier (the sampling-function container and the trial
move) has `protonew = protoold`.  For the MRT2 step this holds
unconditionally; the random step does not touch the proto carriers, so
there it holds given the buffers agreed before the step (they are
equalised at sampling start by `computeOldProtoValues`). -/
theorem doStep_quiescent (env : StepEnv) (s : StepState) :
    stepInvariant (doStepMRT2 env s) ∧
    (s.pdfProto.protonew = s.pdfProto.protoold →
      s.moveProto.protonew = s.moveProto.protoold →
      stepInvariant (doStepRandom env s)) := by
  constructor
  · unfold doStepMRT2 stepInvariant
    dsimp only
    split <;> split <;>
      simp [WalkerState.newToOld, WalkerState.oldToNew,
        ProtoState.newToOld, ProtoState.oldToNew]
  · intro hpdf hmove
    unfold doStepRandom stepInvariant
    simp [WalkerState.newToOld, hpdf, hmove]

/-- Witness for C1 at a concrete step environment and state. -/
theorem doStep_quiescent_witness :
    let env : StepEnv :=
      { ndim := 1
        computeTrialMove := fun w p => (w, p, 1)
        applyDomainSel := id
        applyDomainFull := id
        computeAcceptance := fun _ p => (p, 1)
        randomScaledDraws := [(1 : ℚ) / 2]
        u := 1 / 4 }
    let s : StepState :=
      { wlk := ⟨[0], [0], [], 0, false⟩
        pdfProto := ⟨[3], [3]⟩
        moveProto := ⟨[], []⟩
        acc := 0
        rej := 0 }
    stepInvariant (doStepMRT2 env s) ∧ stepInvariant (doStepRandom env s) := by
  intro env s
  exact ⟨(doStep_quiescent env s).1,
    (doStep_quiescent env s).2 (by decide) (by decide)⟩

/-! ## The top-level `MCI::integrate` -/

/-- Environment of `MCI::integrate`: the configuration read from the
engine and the calls into subsystems implemented elsewhere.  The engine
state is an abstract type `σ`; each subsystem call is a state
transformer. -/
structure IntegrateEnv (σ : Type) where
  /-- Whether `_pdfcont.hasPDF()` holds. -/
  hasPDF : Bool
  /-- Whether `_domain->isFinite()` holds. -/
  domainIsFinite : Bool
  /-- `_domain->getVolume()`. -/
  volume : ℚ
  /-- `_obscont.getNObsDim()`. -/
  nobsdim : ℕ
  /-- Effect of `this->findMRT2Step()`. -/
  findStepEffect : σ → σ
  /-- Effect of `this->initialDecorrelation()`. -/
  decorrEffect : σ → σ
  /-- Effect of `_obscont.allocate(Nmc, _pdfcont)`. -/
  allocEffect : σ → σ
  /-- Effect of `this->sample(Nmc, _obscont, true)`. -/
  sampleEffect : σ → σ
  /-- Values `_obscont.estimate(average, error)` writes into the output
  buffers (`average` first, `error` second), each of length `nobsdim`. -/
  estimateValues : σ → List ℚ × List ℚ
  /-- Effect of `_obscont.deallocate()`. -/
  deallocEffect : σ → σ

/-- Shallow embedding of `MCI::integrate` (`MCIntegrator.cpp`).  The
result carries the final engine state together with either the thrown
`std::domain_error` message (the C++ `throw` leaves the engine
untouched) or the contents of the caller's `average`/`error` buffers,
whose pre-call contents are passed in. -/
def integrate (env : IntegrateEnv σ) (s : σ) (Nmc : ℤ)
    (average error : List ℚ) (doFindMRT2step doDecorrelation : Bool) :
    Except String (List ℚ × List ℚ) × σ :=
  if !env.hasPDF && !env.domainIsFinite then
    (.error "[MCI::integrate] Integrating over an infinite domain requires a sampling function.", s)
  else
    let s1 :=
      if env.hasPDF then
        let sa := if doFindMRT2step then env.findStepEffect s else s
        if doDecorrelation then env.decorrEffect sa else sa
      else s
    if 0 < Nmc then
      let s2 := env.allocEffect s1
      let s3 := env.sampleEffect s2
      let est := env.estimateValues s3
      let outs :=
        if !env.hasPDF then
          (est.1.map (· * env.volume), est.2.map (· * env.volume))
        else est
      (.ok outs, env.deallocEffect s3)
    else
      (.ok (average, error), s1)

/-- C2: `integrate` throws a domain error exactly when no sampling
function is registered and the domain is not finite; the throw happens
before anything else, so the engine state is returned unchanged, and in
every other configuration the call returns normally. -/
theorem integrate_domain_error (env : IntegrateEnv σ) (s : σ) (Nmc : ℤ)
    (average error : List ℚ) (b1 b2 : Bool) :
    (env.hasPDF = false ∧ env.domainIsFinite = false →
      integrate env s Nmc average error b1 b2 =
        (.error "[MCI::integrate] Integrating over an infinite domain requires a sampling function.", s)) ∧
    (env.hasPDF = true ∨ env.domainIsFinite = true →
      ∃ av er s', integrate env s Nmc average error b1 b2 = (.ok (av, er), s')) := by
  constructor
  · rintro ⟨h1, h2⟩
    unfold integrate
    simp [h1, h2]
  · intro h
    unfold integrate
    have hcond : (!env.hasPDF && !env.domainIsFinite) = false := by
      rcases h with h | h <;> simp [h]
    rw [hcond]
    by_cases hN : 0 < Nmc <;> simp only [Bool.false_eq_true, if_false, hN, if_true] <;>
      exact ⟨_, _, _, rfl⟩

/-- Witness for C2: the error case on an infinite domain without PDF,
and the normal case with a PDF registered. -/
theorem integrate_domain_error_witness :
    let envBad : IntegrateEnv Unit :=
      { hasPDF := false, domainIsFinite := false, volume := 1, nobsdim := 0
        findStepEffect := id, decorrEffect := id, allocEffect := id
        sampleEffect := id, estimateValues := fun _ => ([], [])
        deallocEffect := id }
    let envOk : IntegrateEnv Unit :=
      { envBad with hasPDF := true }
    integrate envBad () 10 [] [] true true =
      (.error "[MCI::integrate] Integrating over an infinite domain requires a sampling function.", ()) ∧
    (∃ av er s', integrate envOk () 10 [] [] true true = (.ok (av, er), s')) := by
  intro envBad envOk
  exact ⟨(integrate_domain_error envBad () 10 [] [] true true).1 ⟨rfl, rfl⟩,
    (integrate_domain_error envOk () 10 [] [] true true).2 (Or.inl rfl)⟩

/-- C3: in uniform sampling mode (no PDF registered) with `Nmc > 0`,
`integrate` returns, in every observable dimension, exactly the
container's estimator outputs multiplied by the domain volume; in
particular a dimension whose estimated error is `0` keeps error `0`
after scaling. -/
theorem integrate_uniform_scales_by_volume (env : IntegrateEnv σ) (s : σ)
    (Nmc : ℤ) (average error : List ℚ) (b1 b2 : Bool)
    (hpdf : env.hasPDF = false) (hfin : env.domainIsFinite = true)
    (hN : 0 < Nmc) :
    let est := env.estimateValues (env.sampleEffect (env.allocEffect s))
    integrate env s Nmc average error b1 b2 =
      (.ok (est.1.map (· * env.volume), est.2.map (· * env.volume)),
        env.deallocEffect (env.sampleEffect (env.allocEffect s))) ∧
    (∀ i, est.2.getD i 0 = 0 →
      (est.2.map (· * env.volume)).getD i 0 = 0) := by
  intro est
  constructor
  · unfold integrate
    simp [hpdf, hfin, hN]
  · intro i hi
    rcases Nat.lt_or_ge i est.2.length with hlen | hlen
    · rw [List.getD_eq_getElem?_getD, List.getElem?_map]
      rw [List.getD_eq_getElem?_getD] at hi
      rw [List.getElem?_eq_getElem hlen] at hi ⊢
      simp only [Option.map_some, Option.getD_some] at hi ⊢
      simp [hi]
    · rw [List.getD_eq_getElem?_getD, List.getElem?_eq_none (by simpa using hlen),
        Option.getD_none]

/-- Witness for C3 on a one-observable configuration with a constant
observable: the scaled average is volume times the estimate and the
zero error stays zero. -/
theorem integrate_uniform_scales_by_volume_witness :
    let env : IntegrateEnv Unit :=
      { hasPDF := false, domainIsFinite := true, volume := 8, nobsdim := 1
        findStepEffect := id, decorrEffect := id, allocEffect := id
        sampleEffect := id, estimateValues := fun _ => ([13 / 10], [0])
        deallocEffect := id }
    integrate env () 100 [0] [0] false false =
      (.ok ([(13 : ℚ) / 10 * 8], [0 * 8]), ()) ∧
    (∀ i, ([(0 : ℚ)].getD i 0 = 0 → ([(0 : ℚ)].map (· * 8)).getD i 0 = 0)) := by
  intro env
  exact integrate_uniform_scales_by_volume env () 100 [0] [0] false false
    rfl rfl (by decide)

/-- C9: when `Nmc ≤ 0` and the precondition holds, `integrate` returns
the caller's `average`/`error` buffers unchanged and the final engine
state is produced by the optional tuning and burn-in effects alone —
no allocation, sampling, estimation or deallocation is applied. -/
theorem integrate_nonpositive_frame (env : IntegrateEnv σ) (s : σ)
    (Nmc : ℤ) (average error : List ℚ) (b1 b2 : Bool)
    (hpre : env.hasPDF = true ∨ env.domainIsFinite = true)
    (hN : Nmc ≤ 0) :
    integrate env s Nmc average error b1 b2 =
      (.ok (average, error),
        if env.hasPDF then
          (if b2 then env.decorrEffect else id)
            ((if b1 then env.findStepEffect else id) s)
        else s) := by
  have hcond : (!env.hasPDF && !env.domainIsFinite) = false := by
    rcases hpre with h | h <;> simp [h]
  unfold integrate
  rw [hcond]
  have hN' : ¬(0 < Nmc) := not_lt.mpr hN
  simp only [Bool.false_eq_true, if_false, hN']
  by_cases hp : env.hasPDF <;> by_cases h1 : b1 <;> by_cases h2 : b2 <;>
    simp [hp, h1, h2]

/-- Witness for C9 at a concrete engine with counting effects. -/
theorem integrate_nonpositive_frame_witness :
    let env : IntegrateEnv ℕ :=
      { hasPDF := true, domainIsFinite := false, volume := 1, nobsdim := 1
        findStepEffect := fun n => n + 1, decorrEffect := fun n => n + 10
        allocEffect := fun n => n + 100, sampleEffect := fun n => n + 1000
        estimateValues := fun _ => ([7], [7]), deallocEffect := fun n => n + 10000 }
    integrate env 0 0 [1, 2] [3, 4] true true = (.ok ([1, 2], [3, 4]), 11) := by
  intro env
  exact (integrate_nonpositive_frame env 0 0 [1, 2] [3, 4] true true
    (Or.inl rfl) (by decide)).trans rfl

/-! ## Accumulator interface (`AccumulatorInterface.hpp`) -/

/-- State of an accumulator relevant to its step bookkeeping:
`_nobs`, `_nskip` (an `int`, forced `≥ 1` by `MCI::addObservable`),
`_nsteps` (an `int64_t`, set on `allocate`), and `_stepidx`. -/
structure AccumulatorState where
  nobs : ℕ
  nskip : ℤ
  nsteps : ℤ
  stepidx : ℤ

/-- `AccumulatorInterface::isAllocated`: `_nsteps > 0`. -/
def AccumulatorState.isAllocated (a : AccumulatorState) : Bool :=
  decide (0 < a.nsteps)

/-- `AccumulatorInterface::getNAccu`: the number of steps on which the
observable is actually evaluated,
`(_nsteps > 0) ? 1 + (_nsteps - 1)/_nskip : 0` with C++ (toward-zero)
integer division. -/
def AccumulatorState.getNAccu (a : AccumulatorState) : ℤ :=
  if 0 < a.nsteps then 1 + (a.nsteps - 1).tdiv a.nskip else 0

/-- Helper: toward-zero division of casts of naturals is natural
division, packaged for the `getNAccu` arithmetic. -/
theorem toNat_one_add_tdiv (m k : ℕ) (hm : 0 < m) :
    (1 + ((m : ℤ) - 1).tdiv (k : ℤ)).toNat = 1 + (m - 1) / k := by
  have h1 : ((m : ℤ) - 1) = ((m - 1 : ℕ) : ℤ) := by omega
  rw [h1, (Int.ofNat_tdiv (m - 1) k).symm, ← Nat.cast_one, ← Nat.cast_add,
    Int.toNat_natCast]

/-- C8: for an accumulator allocated for `nsteps` planned steps with
stride `nskip ≥ 1`, `getNAccu` equals `1 + (nsteps − 1)/nskip` with
integer division; since both operands are then non-negative, this is
the same as natural-number division of `nsteps − 1` by `nskip`. -/
theorem getNAccu_formula (a : AccumulatorState)
    (halloc : a.isAllocated = true) (hskip : 1 ≤ a.nskip) :
    a.getNAccu = 1 + (a.nsteps - 1).tdiv a.nskip ∧
    a.getNAccu.toNat = 1 + (a.nsteps.toNat - 1) / a.nskip.toNat := by
  have hpos : 0 < a.nsteps := of_decide_eq_true halloc
  refine ⟨by unfold AccumulatorState.getNAccu; rw [if_pos hpos], ?_⟩
  unfold AccumulatorState.getNAccu
  rw [if_pos hpos]
  set m := a.nsteps.toNat with hm
  set k := a.nskip.toNat with hk
  have hms : a.nsteps = (m : ℤ) := by omega
  have hks : a.nskip = (k : ℤ) := by omega
  rw [hms, hks]
  exact toNat_one_add_tdiv m k (by omega)

/-- Witness for C8: `nsteps = 7`, `nskip = 3` gives `getNAccu = 3`. -/
theorem getNAccu_formula_witness :
    let a : AccumulatorState := ⟨2, 3, 7, 0⟩
    a.isAllocated = true ∧ (1 : ℤ) ≤ a.nskip ∧
      a.getNAccu = 1 + ((7 : ℤ) - 1).tdiv 3 ∧
      a.getNAccu.toNat = 1 + ((7 : ℕ) - 1) / 3 := by
  intro a
  exact ⟨by decide, by decide,
    (getNAccu_formula a (by decide) (by decide)).1,
    (getNAccu_formula a (by decide) (by decide)).2⟩

/-! ## Trial-move step sizes seen through `MCI` -/

/-- Adjustable step sizes exposed by the trial move
(`TrialMoveInterface`); the move stores them contiguously and
`getNStepSizes` returns their count. -/
structure TrialMoveSteps where
  stepSizes : List ℚ

/-- `_trialMove->getNStepSizes()`. -/
def TrialMoveSteps.getNStepSizes (t : TrialMoveSteps) : ℕ :=
  t.stepSizes.length

/-- `_trialMove->getStepSize(i)` for an in-range index. -/
def TrialMoveSteps.getStepSize (t : TrialMoveSteps) (i : ℕ) : ℚ :=
  t.stepSizes.getD i 0

/-- `MCI::getMRT2Step` (`MCIntegrator.cpp`): guarded access,
`(i < _trialMove->getNStepSizes()) ? _trialMove->getStepSize(i) : 0.`. -/
def getMRT2Step (t : TrialMoveSteps) (i : ℕ) : ℚ :=
  if i < t.getNStepSizes then t.getStepSize i else 0

/-- C10: `getMRT2Step` returns `0.0` for every index at or past the
trial move's number of step sizes instead of reading out of range, and
returns the trial move's stored step size for every in-range index. -/
theorem getMRT2Step_safe (t : TrialMoveSteps) (i : ℕ) :
    (t.getNStepSizes ≤ i → getMRT2Step t i = 0) ∧
    (∀ h : i < t.getNStepSizes, getMRT2Step t i = t.stepSizes.get ⟨i, h⟩) := by
  constructor
  · intro h
    unfold getMRT2Step
    rw [if_neg (not_lt.mpr h)]
  · intro h
    unfold getMRT2Step TrialMoveSteps.getStepSize
    rw [if_pos h, List.getD_eq_getElem?_getD, List.getElem?_eq_getElem h]
    simp

/-- Witness for C10 on a two-entry step-size list: out-of-range index 5
yields 0, in-range index 1 yields the stored value. -/
theorem getMRT2Step_safe_witness :
    let t : TrialMoveSteps := ⟨[3 / 2, 5 / 4]⟩
    getMRT2Step t 5 = 0 ∧ getMRT2Step t 1 = 5 / 4 := by
  intro t
  exact ⟨(getMRT2Step_safe t 5).1 (by decide),
    ((getMRT2Step_safe t 1).2 (by decide)).trans rfl⟩

/-! ## One iteration of step-size tuning (`MCI::findMRT2Step`) -/

/-- Smallest positive normal `float` value,
`std::numeric_limits<float>::min() = 2^(-126)`, used by
`findMRT2Step` as the lower bound on step sizes. -/
def SMALLEST_ACCEPTABLE_DOUBLE : ℚ := 1 / 2 ^ 126

/-- Scaling factor of one tuning iteration,
`std::min(2., std::max(0.5, rate/_targetaccrate))`. -/
def tuneFactor (rate target : ℚ) : ℚ :=
  min 2 (max (1 / 2) (rate / target))

/-- `_trialMove->scaleStepSizes(fact)`: multiply all adjustable step
sizes by the factor. -/
def scaleStepSizes (fact : ℚ) (steps : List ℚ) : List ℚ :=
  steps.map (· * fact)

/-- Body of the large-step cap for a single dimension `d = (stepSizeIdx,
dimSize)`: `if getStepSize(stepSizeIdx[i]) > 0.5*dimSizes[i] then
setStepSize(stepSizeIdx[i], 0.5*dimSizes[i])`. -/
def capOne (st : List ℚ) (d : ℕ × ℚ) : List ℚ :=
  if st.getD d.1 0 > d.2 / 2 then st.set d.1 (d.2 / 2) else st

/-- Large-step cap of one tuning iteration: the loop over
`i ∈ [0, ndim)` of `capOne`, folded left over the per-dimension pairs
`(stepSizeIdx[i], dimSizes[i])`. -/
def capSteps (dims : List (ℕ × ℚ)) (steps : List ℚ) : List ℚ :=
  dims.foldl capOne steps

/-- Small-step floor of one tuning iteration: the loop
`for j in [0, nStepSizes): if getStepSize(j) < SMALLEST then
setStepSize(j, SMALLEST)`. -/
def floorSteps (steps : List ℚ) : List ℚ :=
  steps.map (fun s => if s < SMALLEST_ACCEPTABLE_DOUBLE
    then SMALLEST_ACCEPTABLE_DOUBLE else s)

/-- Step-size update of one iteration of `MCI::findMRT2Step`: scale by
the clamped factor, cap against half the dimension sizes, floor at the
smallest float. -/
def tuneStepSizes (rate target : ℚ) (dims : List (ℕ × ℚ))
    (steps : List ℚ) : List ℚ :=
  floorSteps (capSteps dims (scaleStepSizes (tuneFactor rate target) steps))

/-- Length is preserved by `capOne`. -/
theorem capOne_length (st : List ℚ) (d : ℕ × ℚ) :
    (capOne st d).length = st.length := by
  unfold capOne
  split <;> simp

/-- Length is preserved by `capSteps`. -/
theorem capSteps_length (dims : List (ℕ × ℚ)) (steps : List ℚ) :
    (capSteps dims steps).length = steps.length := by
  induction dims generalizing steps with
  | nil => rfl
  | cons d ds ih =>
    show (capSteps ds (capOne steps d)).length = _
    rw [ih, capOne_length]

/-- Entries of `capOne` never increase. -/
theorem capOne_getD_le (st : List ℚ) (d : ℕ × ℚ) (j : ℕ) :
    (capOne st d).getD j 0 ≤ st.getD j 0 := by
  unfold capOne
  split
  · rename_i hgt
    rcases eq_or_ne d.1 j with rfl | hne
    · rcases Nat.lt_or_ge d.1 st.length with hlt | hge
      · rw [List.getD_eq_getElem?_getD, List.getElem?_set_self hlt,
          Option.getD_some]
        exact le_of_lt hgt
      · rw [List.set_eq_of_length_le hge]
    · rw [List.getD_eq_getElem?_getD, List.getElem?_set_ne hne,
        ← List.getD_eq_getElem?_getD]
  · exact le_rfl

/-- After `capOne` processes dimension `d`, the step size serving `d`
is at most half of `d`'s size. -/
theorem capOne_getD_capped (st : List ℚ) (d : ℕ × ℚ) (hd : d.1 < st.length) :
    (capOne st d).getD d.1 0 ≤ d.2 / 2 := by
  unfold capOne
  split
  · rw [List.getD_eq_getElem?_getD, List.getElem?_set_self hd,
      Option.getD_some]
  · rename_i hgt
    exact not_lt.mp hgt

/-- Entries of `capSteps` never increase. -/
theorem capSteps_getD_le (dims : List (ℕ × ℚ)) (steps : List ℚ) (j : ℕ) :
    (capSteps dims steps).getD j 0 ≤ steps.getD j 0 := by
  induction dims generalizing steps with
  | nil => exact le_rfl
  | cons d ds ih =>
    calc (capSteps (d :: ds) steps).getD j 0
        = (capSteps ds (capOne steps d)).getD j 0 := rfl
      _ ≤ (capOne steps d).getD j 0 := ih _
      _ ≤ steps.getD j 0 := capOne_getD_le _ _ _

/-- After the full cap pass, the step size serving any processed
dimension is at most half that dimension's size. -/
theorem capSteps_getD_capped (dims : List (ℕ × ℚ)) (steps : List ℚ)
    (d : ℕ × ℚ) (hmem : d ∈ dims) (hd : d.1 < steps.length) :
    (capSteps dims steps).getD d.1 0 ≤ d.2 / 2 := by
  induction dims generalizing steps with
  | nil => cases hmem
  | cons x ds ih =>
    rcases List.mem_cons.mp hmem with rfl | hmem'
    · calc (capSteps (d :: ds) steps).getD d.1 0
          = (capSteps ds (capOne steps d)).getD d.1 0 := rfl
        _ ≤ (capOne steps d).getD d.1 0 := capSteps_getD_le _ _ _
        _ ≤ d.2 / 2 := capOne_getD_capped _ _ hd
    · exact ih (capOne steps x) hmem' (by rw [capOne_length]; exact hd)

/-- Pointwise description of the small-step floor. -/
theorem floorSteps_getD (steps : List ℚ) (j : ℕ) (hj : j < steps.length) :
    SMALLEST_ACCEPTABLE_DOUBLE ≤ (floorSteps steps).getD j 0 ∧
    (SMALLEST_ACCEPTABLE_DOUBLE ≤ steps.getD j 0 →
      (floorSteps steps).getD j 0 = steps.getD j 0) := by
  unfold floorSteps
  rw [List.getD_eq_getElem?_getD, List.getElem?_map,
    List.getElem?_eq_getElem hj, List.getD_eq_getElem?_getD,
    List.getElem?_eq_getElem hj]
  simp only [Option.map_some', Option.getD_some]
  constructor
  · split
    · exact le_rfl
    · rename_i h
      exact not_lt.mp h
  · intro hge
    rw [if_neg (not_lt.mpr hge)]

/-- Pointwise description of the scaling pass. -/
theorem scaleStepSizes_getD (f : ℚ) (steps : List ℚ) (j : ℕ)
    (hj : j < steps.length) :
    (scaleStepSizes f steps).getD j 0 = steps.getD j 0 * f := by
  unfold scaleStepSizes
  rw [List.getD_eq_getElem?_getD, List.getElem?_map,
    List.getElem?_eq_getElem hj, List.getD_eq_getElem?_getD,
    List.getElem?_eq_getElem hj]
  simp

/-- The scaling factor is the claimed clamp of `rate/target`. -/
theorem tuneFactor_clamped (rate target : ℚ) :
    1 / 2 ≤ tuneFactor rate target ∧ tuneFactor rate target ≤ 2 ∧
    (1 / 2 ≤ rate / target → rate / target ≤ 2 →
      tuneFactor rate target = rate / target) := by
  unfold tuneFactor
  refine ⟨le_min (by norm_num) (le_max_left _ _), min_le_left _ _, ?_⟩
  intro h1 h2
  rw [max_eq_right h1, min_eq_right h2]

/-- C5 (amended): in every tuning iteration the adjustable step sizes
are all multiplied by the clamp of `rate/target` into `[1/2, 2]`; the
cap pass then leaves, for every dimension, the step size serving that
dimension at most half the dimension's size (when several dimensions
share one step size it may end strictly below half the size of some of
them); finally every step size below the smallest positive normal
float-32 value is raised to exactly that value and larger ones are
left alone. -/
theorem tuneStepSizes_spec (rate target : ℚ) (dims : List (ℕ × ℚ))
    (steps : List ℚ) (hidx : ∀ d ∈ dims, d.1 < steps.length) :
    (1 / 2 ≤ tuneFactor rate target ∧ tuneFactor rate target ≤ 2 ∧
      (1 / 2 ≤ rate / target → rate / target ≤ 2 →
        tuneFactor rate target = rate / target)) ∧
    (∀ j < steps.length,
      (scaleStepSizes (tuneFactor rate target) steps).getD j 0 =
        steps.getD j 0 * tuneFactor rate target) ∧
    (∀ d ∈ dims,
      (capSteps dims (scaleStepSizes (tuneFactor rate target) steps)).getD
        d.1 0 ≤ d.2 / 2) ∧
    (∀ j < steps.length,
      SMALLEST_ACCEPTABLE_DOUBLE ≤
        (floorSteps (capSteps dims
          (scaleStepSizes (tuneFactor rate target) steps))).getD j 0 ∧
      (SMALLEST_ACCEPTABLE_DOUBLE ≤
          (capSteps dims
            (scaleStepSizes (tuneFactor rate target) steps)).getD j 0 →
        (floorSteps (capSteps dims
          (scaleStepSizes (tuneFactor rate target) steps))).getD j 0 =
          (capSteps dims
            (scaleStepSizes (tuneFactor rate target) steps)).getD j 0)) ∧
    tuneStepSizes rate target dims steps =
      floorSteps (capSteps dims
        (scaleStepSizes (tuneFactor rate target) steps)) := by
  set f := tuneFactor rate target with hf
  set scaled := scaleStepSizes f steps with hscaled
  set capped := capSteps dims scaled with hcapped
  have hslen : scaled.length = steps.length := by
    rw [hscaled]
    unfold scaleStepSizes
    exact List.length_map _ _
  have hclen : capped.length = steps.length := by
    rw [hcapped, capSteps_length, hslen]
  refine ⟨tuneFactor_clamped rate target, ?_, ?_, ?_, rfl⟩
  · intro j hj
    exact scaleStepSizes_getD f steps j hj
  · intro d hd
    exact capSteps_getD_capped dims scaled d hd (by rw [hslen]; exact hidx d hd)
  · intro j hj
    exact floorSteps_getD capped j (by rw [hclen]; exact hj)

/-- Witness for C5 at a concrete iteration: two dimensions of sizes 4
and 2 with separate step sizes starting at 3, rate equal to target. -/
theorem tuneStepSizes_spec_witness :
    (∀ d ∈ [((0 : ℕ), (4 : ℚ)), (1, 2)], d.1 < ([(3 : ℚ), 3]).length) ∧
    (∀ d ∈ [((0 : ℕ), (4 : ℚ)), (1, 2)],
      (capSteps [((0 : ℕ), (4 : ℚ)), (1, 2)]
        (scaleStepSizes (tuneFactor 1 1) [3, 3])).getD d.1 0 ≤ d.2 / 2) := by
  refine ⟨by simp, ?_⟩
  exact (tuneStepSizes_spec 1 1 [((0 : ℕ), (4 : ℚ)), (1, 2)] [3, 3]
    (by simp)).2.2.1

/-- C5 counterexample: with dimension sizes 4 and 2 both served by
step-size index 0 and scaled step 3, dimension 0's step (3) exceeds
half its size (2) but the cap pass leaves the step at 1, not at
exactly 2 — the claimed per-dimension exactness fails. -/
theorem capSteps_not_exact :
    tuneFactor 1 1 = 1 ∧
    scaleStepSizes (tuneFactor 1 1) [(3 : ℚ)] = [3] ∧
    ¬ (∀ d ∈ [((0 : ℕ), (4 : ℚ)), (0, 2)],
        (scaleStepSizes (tuneFactor 1 1) [(3 : ℚ)]).getD d.1 0 > d.2 / 2 →
          (capSteps [((0 : ℕ), (4 : ℚ)), (0, 2)]
            (scaleStepSizes (tuneFactor 1 1) [3])).getD d.1 0 = d.2 / 2) := by
  have hf : tuneFactor 1 1 = 1 := by
    unfold tuneFactor
    norm_num
  have hs : scaleStepSizes (tuneFactor 1 1) [(3 : ℚ)] = [3] := by
    rw [hf]
    unfold scaleStepSizes
    norm_num
  refine ⟨hf, hs, ?_⟩
  intro h
  have h0 := h (0, 4) (by simp)
  rw [hs] at h0
  have hcap : capSteps [((0 : ℕ), (4 : ℚ)), (0, 2)] [3] = [1] := by
    show capOne (capOne [3] (0, 4)) (0, 2) = [1]
    rw [show capOne [(3 : ℚ)] (0, 4) = [2] by unfold capOne; norm_num]
    unfold capOne
    norm_num
  rw [hcap] at h0
  norm_num at h0

/-! ## Automatic burn-in (`MCI::initialDecorrelation`) -/

/-- Step batch used by the auto-tuning and auto-equilibration phases,
`static_cast<int64_t>(std::max(100., sqrt(40000.*ndim)/nranks))` with
`nranks = 1` (no MPI).  The truncating cast of the real square root of
the natural number `40000*ndim` is its natural-number square root. -/
def MIN_NMC (ndim : ℕ) : ℤ :=
  max 100 (Nat.sqrt (40000 * ndim))

/-- `MIN_NMC` is at least 100. -/
theorem MIN_NMC_ge (ndim : ℕ) : 100 ≤ MIN_NMC ndim :=
  le_max_left _ _

/-- Per-dimension continuation test of the equilibration loop,
`fabs(old[i] - new[i]) > 2*sqrt(olderr[i]*olderr[i] +
newerr[i]*newerr[i])`; both sides are non-negative, so it is embedded
as the equivalent squared comparison to stay in exact rational
arithmetic (`decorrTooFar_iff_sqrt` recovers the square-root form). -/
def decorrTooFar (o n oerr nerr : ℚ) : Bool :=
  decide (4 * (oerr * oerr + nerr * nerr) < (o - n) * (o - n))

/-- The squared comparison coincides with the source's square-root
comparison over the reals. -/
theorem decorrTooFar_iff_sqrt (o n oerr nerr : ℚ) :
    decorrTooFar o n oerr nerr = true ↔
      |(o : ℝ) - (n : ℝ)| >
        2 * Real.sqrt ((oerr : ℝ) * (oerr : ℝ) + (nerr : ℝ) * (nerr : ℝ)) := by
  unfold decorrTooFar
  rw [decide_eq_true_eq]
  have h4 : (2 : ℝ) * Real.sqrt ((oerr : ℝ) * oerr + (nerr : ℝ) * nerr) =
      Real.sqrt (4 * ((oerr : ℝ) * oerr + (nerr : ℝ) * nerr)) := by
    rw [Real.sqrt_mul (by norm_num : (0 : ℝ) ≤ 4),
      show Real.sqrt 4 = 2 by
        rw [show (4 : ℝ) = 2 ^ 2 by norm_num, Real.sqrt_sq (by norm_num)]]
  have hnn : (0 : ℝ) ≤ 4 * ((oerr : ℝ) * oerr + (nerr : ℝ) * nerr) := by
    nlinarith [mul_self_nonneg ((oerr : ℝ)), mul_self_nonneg ((nerr : ℝ))]
  rw [gt_iff_lt, h4, ← Real.sqrt_mul_self_eq_abs, Real.sqrt_lt_sqrt_iff hnn]
  constructor
  · intro h
    exact_mod_cast h
  · intro h
    exact_mod_cast h

/-- Continuation test over all observable dimensions: the inner
`for i in [0, nobsdim)` loop sets `flag_loop` iff some dimension is
still too far. -/
def anyTooFar (nobsdim : ℕ) (o n : List ℚ × List ℚ) : Bool :=
  (List.range nobsdim).any fun i =>
    decorrTooFar (o.1.getD i 0) (n.1.getD i 0) (o.2.getD i 0) (n.2.getD i 0)

/-- Equilibration loop of `MCI::initialDecorrelation` for
`_NdecorrelationSteps < 0`.  Each round samples `MIN_NMC ndim` steps
(abstracted: `ests k` is the estimate the temporary container would
produce after round `k`), adds them to the cumulative count, breaks
with a warning once the count reaches the cap
`|NdecorrelationSteps|`, otherwise re-estimates and continues iff some
dimension is still too far (the new estimate replacing the old).
Returns the number of rounds and whether the cap warning fired. -/
def decorrLoop (ndim : ℕ) (cap : ℤ) (nobsdim : ℕ)
    (ests : ℕ → List ℚ × List ℚ) (old : List ℚ × List ℚ)
    (k : ℕ) (count : ℤ) : ℕ × Bool :=
  if cap ≤ count + MIN_NMC ndim then (k + 1, true)
  else if anyTooFar nobsdim old (ests k) then
    decorrLoop ndim cap nobsdim ests (ests k) (k + 1) (count + MIN_NMC ndim)
  else (k + 1, false)
termination_by (cap - count).toNat
decreasing_by
  have h100 := MIN_NMC_ge ndim
  rename_i hcap _
  omega

/-- Needs-equilibration bookkeeping of the observable container: per
observable its `flag_equil` and its `nobs`; the temporary container of
`initialDecorrelation` clones exactly the flagged ones, so its
`getNObsDim` is the sum of their dimensions. -/
def equilNObsDim (obs : List (Bool × ℕ)) : ℕ :=
  (obs.filter (fun o => o.1)).foldl (fun a o => a + o.2) 0

/-- Number of sampling steps performed by `MCI::initialDecorrelation`:
for a negative setting, the initial `MIN_NMC` estimation run plus
`MIN_NMC` per loop round; for a positive setting, exactly that many
steps; otherwise none. -/
def initialDecorrSteps (ndim : ℕ) (Ndecorr : ℤ) (obs : List (Bool × ℕ))
    (ests : ℕ → List ℚ × List ℚ) (est0 : List ℚ × List ℚ) : ℤ :=
  if Ndecorr < 0 then
    MIN_NMC ndim + MIN_NMC ndim *
      (decorrLoop ndim Ndecorr.natAbs (equilNObsDim obs) ests est0 0 0).1
  else if 0 < Ndecorr then Ndecorr
  else 0

/-- The continuation test over zero observable dimensions never fires. -/
theorem anyTooFar_zero (o n : List ℚ × List ℚ) : anyTooFar 0 o n = false :=
  rfl

/-- The step batch at `ndim = 1` is `max 100 √40000 = 200`. -/
theorem MIN_NMC_one : MIN_NMC 1 = 200 := by
  unfold MIN_NMC
  rw [show (40000 * 1 : ℕ) = 200 * 200 by norm_num, Nat.sqrt_eq 200]
  norm_num

/-- C4: with `NdecorrelationSteps < 0`, every round of the automatic
burn-in loop stops with the max-steps warning as soon as the
cumulative step count reaches the cap `|NdecorrelationSteps|`
(flagged `true`, a log warning rather than an error); below the cap it
continues to another round exactly when the continuation test fires,
and that test holds iff some observable dimension `i` satisfies
`|old[i] − new[i]| > 2·√(old_err[i]² + new_err[i]²)` in real
arithmetic. -/
theorem decorrLoop_spec (ndim : ℕ) (cap : ℤ) (nobsdim : ℕ)
    (ests : ℕ → List ℚ × List ℚ) (old : List ℚ × List ℚ)
    (k : ℕ) (count : ℤ) :
    (cap ≤ count + MIN_NMC ndim →
      decorrLoop ndim cap nobsdim ests old k count = (k + 1, true)) ∧
    (count + MIN_NMC ndim < cap →
      decorrLoop ndim cap nobsdim ests old k count =
        (if anyTooFar nobsdim old (ests k) then
          decorrLoop ndim cap nobsdim ests (ests k) (k + 1)
            (count + MIN_NMC ndim)
        else (k + 1, false))) ∧
    (anyTooFar nobsdim old (ests k) = true ↔
      ∃ i < nobsdim,
        |(old.1.getD i 0 : ℝ) - ((ests k).1.getD i 0 : ℝ)| >
          2 * Real.sqrt ((old.2.getD i 0 : ℝ) * (old.2.getD i 0 : ℝ) +
            ((ests k).2.getD i 0 : ℝ) * ((ests k).2.getD i 0 : ℝ))) := by
  refine ⟨?_, ?_, ?_⟩
  · intro h
    rw [decorrLoop.eq_def, if_pos h]
  · intro h
    rw [decorrLoop.eq_def, if_neg (not_le.mpr h)]
  · unfold anyTooFar
    rw [List.any_eq_true]
    constructor
    · rintro ⟨i, hi, htf⟩
      exact ⟨i, List.mem_range.mp hi, (decorrTooFar_iff_sqrt _ _ _ _).mp htf⟩
    · rintro ⟨i, hi, hgt⟩
      exact ⟨i, List.mem_range.mpr hi, (decorrTooFar_iff_sqrt _ _ _ _).mpr hgt⟩

/-- Witness for C4: with `ndim = 1` (batch 200) the loop warns at once
under cap 100, and under cap 10000 takes the continuation branch. -/
theorem decorrLoop_spec_witness :
    ((100 : ℤ) ≤ 0 + MIN_NMC 1 ∧
      decorrLoop 1 100 0 (fun _ => ([], [])) ([], []) 0 0 = (1, true)) ∧
    ((0 : ℤ) + MIN_NMC 1 < 10000 ∧
      decorrLoop 1 10000 0 (fun _ => ([], [])) ([], []) 0 0 =
        (if anyTooFar 0 ([], []) ([], []) then
          decorrLoop 1 10000 0 (fun _ => ([], [])) ([], []) 1 (0 + MIN_NMC 1)
        else (1, false))) := by
  have h1 : (100 : ℤ) ≤ 0 + MIN_NMC 1 := by
    have := MIN_NMC_ge 1
    omega
  have h2 : (0 : ℤ) + MIN_NMC 1 < 10000 := by
    rw [MIN_NMC_one]
    norm_num
  exact ⟨⟨h1, (decorrLoop_spec 1 100 0 (fun _ => ([], [])) ([], []) 0 0).1 h1⟩,
    ⟨h2, (decorrLoop_spec 1 10000 0 (fun _ => ([], [])) ([], []) 0 0).2.1 h2⟩⟩

/-- C7 (amended): with `NdecorrelationSteps < 0` and no registered
observable carrying the needs-equilibration flag, the automatic burn-in
phase is not empty: it performs exactly `2 · MIN_NMC` sampling steps —
the initial estimation run plus one loop round, whose continuation test
over zero observable dimensions never fires (or whose cap warning fires
first), after which the loop exits. -/
theorem initialDecorrSteps_no_equil (ndim : ℕ) (Ndecorr : ℤ)
    (obs : List (Bool × ℕ)) (ests : ℕ → List ℚ × List ℚ)
    (est0 : List ℚ × List ℚ) (hneg : Ndecorr < 0)
    (hobs : ∀ o ∈ obs, o.1 = false) :
    initialDecorrSteps ndim Ndecorr obs ests est0 = 2 * MIN_NMC ndim := by
  have hfilter : obs.filter (fun o => o.1) = [] := by
    rw [List.filter_eq_nil_iff]
    intro a ha
    simp [hobs a ha]
  have hzero : equilNObsDim obs = 0 := by
    unfold equilNObsDim
    rw [hfilter]
    rfl
  unfold initialDecorrSteps
  rw [if_pos hneg, hzero]
  have hloop : (decorrLoop ndim Ndecorr.natAbs 0 ests est0 0 0).1 = 1 := by
    rw [decorrLoop.eq_def]
    split
    · rfl
    · rw [anyTooFar_zero]
      simp
  rw [hloop]
  ring

/-- Witness for C7's amended statement at `ndim = 3`, the default cap,
and two unflagged observables. -/
theorem initialDecorrSteps_no_equil_witness :
    ((-10000 : ℤ) < 0 ∧ ∀ o ∈ [((false : Bool), (1 : ℕ)), (false, 2)], o.1 = false) ∧
    initialDecorrSteps 3 (-10000) [(false, 1), (false, 2)]
      (fun _ => ([], [])) ([], []) = 2 * MIN_NMC 3 := by
  refine ⟨⟨by norm_num, by simp⟩, ?_⟩
  exact initialDecorrSteps_no_equil 3 (-10000) [(false, 1), (false, 2)]
    (fun _ => ([], [])) ([], []) (by norm_num) (by simp)

/-- C7 counterexample: at `ndim = 1` with the default
`NdecorrelationSteps = −10000` and two observables whose
needs-equilibration flag is unset, the burn-in phase performs 400
sampling steps — it is not empty. -/
theorem initialDecorrSteps_not_empty :
    initialDecorrSteps 1 (-10000) [((false : Bool), (1 : ℕ)), (false, 2)]
      (fun _ => ([], [])) ([], []) = 400 ∧ (400 : ℤ) ≠ 0 := by
  refine ⟨?_, by norm_num⟩
  have hzero : equilNObsDim [((false : Bool), (1 : ℕ)), (false, 2)] = 0 := rfl
  have habs : ((-10000 : ℤ)).natAbs = 10000 := rfl
  unfold initialDecorrSteps
  rw [if_pos (by norm_num), hzero, habs]
  have hloop : decorrLoop 1 ((10000 : ℕ) : ℤ) 0 (fun _ => ([], [])) ([], []) 0 0 =
      (1, false) := by
    rw [decorrLoop.eq_def,
      if_neg (by rw [MIN_NMC_one]; norm_num : ¬((10000 : ℕ) : ℤ) ≤ 0 + MIN_NMC 1)]
    rw [anyTooFar_zero]
    simp
  rw [hloop, MIN_NMC_one]
  norm_num

/-! ## Termination of step-size tuning (`MCI::findMRT2Step`) -/

/-- Consecutive-within-tolerance counter of `findMRT2Step` after `k`
completed iterations: incremented while `fabs(rate − target) <
TOLERANCE` (`0.05`), reset otherwise; `rates k` abstracts the
acceptance rate measured in iteration `k`. -/
def consAfter (rates : ℕ → ℚ) (target : ℚ) : ℕ → ℕ
  | 0 => 0
  | k + 1 => if |rates k - target| < 1 / 20 then consAfter rates target k + 1
             else 0

/-- Iteration loop of `MCI::findMRT2Step`: runs while
`(_NfindMRT2Iterations < 0 && cons_count < MIN_CONS) || counter <
_NfindMRT2Iterations` with `MIN_CONS = 5`; each pass updates the
consecutive counter from the measured rate, increments `counter`, and
breaks once `_NfindMRT2Iterations < 0 && counter >=
abs(_NfindMRT2Iterations)`.  The step-size updates inside the pass
(covered by `tuneStepSizes`) do not influence the iteration count.
Returns the number of iterations performed. -/
def findLoop (NIter : ℤ) (rates : ℕ → ℚ) (target : ℚ)
    (cons counter : ℕ) : ℕ :=
  if (NIter < 0 ∧ cons < 5) ∨ (counter : ℤ) < NIter then
    if NIter < 0 ∧ (NIter.natAbs : ℤ) ≤ (counter : ℤ) + 1 then counter + 1
    else findLoop NIter rates target
      (if |rates counter - target| < 1 / 20 then cons + 1 else 0) (counter + 1)
  else counter
termination_by NIter.natAbs - counter
decreasing_by omega

/-- `MCI::findMRT2Step`: immediate return when the trial move has no
adjustable step sizes (`hasStepSizes`), otherwise the tuning loop from
fresh counters; measured as the number of iterations performed. -/
def findMRT2Step (hasStepSizes : Bool) (NIter : ℤ) (rates : ℕ → ℚ)
    (target : ℚ) : ℕ :=
  if !hasStepSizes then 0 else findLoop NIter rates target 0 0

/-- The loop exits when its while-condition fails. -/
theorem findLoop_stop (NIter : ℤ) (rates : ℕ → ℚ) (target : ℚ)
    (cons counter : ℕ)
    (h : ¬((NIter < 0 ∧ cons < 5) ∨ (counter : ℤ) < NIter)) :
    findLoop NIter rates target cons counter = counter := by
  rw [findLoop.eq_def, if_neg h]

/-- The loop breaks right after the iteration that reaches the cap. -/
theorem findLoop_break_eq (NIter : ℤ) (rates : ℕ → ℚ) (target : ℚ)
    (cons counter : ℕ)
    (h : (NIter < 0 ∧ cons < 5) ∨ (counter : ℤ) < NIter)
    (hb : NIter < 0 ∧ (NIter.natAbs : ℤ) ≤ (counter : ℤ) + 1) :
    findLoop NIter rates target cons counter = counter + 1 := by
  rw [findLoop.eq_def, if_pos h, if_pos hb]

/-- Below the cap, an iteration recurses with the updated counters. -/
theorem findLoop_cont (NIter : ℤ) (rates : ℕ → ℚ) (target : ℚ)
    (cons counter : ℕ)
    (h : (NIter < 0 ∧ cons < 5) ∨ (counter : ℤ) < NIter)
    (hb : ¬(NIter < 0 ∧ (NIter.natAbs : ℤ) ≤ (counter : ℤ) + 1)) :
    findLoop NIter rates target cons counter =
      findLoop NIter rates target
        (if |rates counter - target| < 1 / 20 then cons + 1 else 0)
        (counter + 1) := by
  conv_lhs => rw [findLoop.eq_def]
  rw [if_pos h, if_neg hb]

/-- Characterization of the loop for negative `NfindMRT2Iterations`:
from a state consistent with `consAfter`, the loop runs to the first
round at which the consecutive counter has reached 5 or the round
count has reached the cap. -/
theorem findLoop_neg_spec (NIter : ℤ) (rates : ℕ → ℚ) (target : ℚ)
    (hN : NIter < 0) :
    ∀ n k, NIter.natAbs - k ≤ n → k < NIter.natAbs →
      consAfter rates target k < 5 →
      ((5 ≤ consAfter rates target
            (findLoop NIter rates target (consAfter rates target k) k) ∨
          findLoop NIter rates target (consAfter rates target k) k =
            NIter.natAbs) ∧
        k < findLoop NIter rates target (consAfter rates target k) k ∧
        findLoop NIter rates target (consAfter rates target k) k ≤
          NIter.natAbs ∧
        ∀ j, k ≤ j →
          j < findLoop NIter rates target (consAfter rates target k) k →
          consAfter rates target j < 5 ∧ j < NIter.natAbs) := by
  intro n
  induction n with
  | zero =>
    intro k hfuel hk _
    omega
  | succ n ih =>
    intro k hfuel hk hc
    have hcond : (NIter < 0 ∧ consAfter rates target k < 5) ∨
        (k : ℤ) < NIter := Or.inl ⟨hN, hc⟩
    by_cases hb : NIter < 0 ∧ (NIter.natAbs : ℤ) ≤ (k : ℤ) + 1
    · have hr := findLoop_break_eq NIter rates target
        (consAfter rates target k) k hcond hb
      rw [hr]
      have hk1 : k + 1 = NIter.natAbs := by omega
      refine ⟨Or.inr hk1, by omega, by omega, ?_⟩
      intro j hj1 hj2
      have hjk : j = k := by omega
      subst hjk
      exact ⟨hc, hk⟩
    · have hr := findLoop_cont NIter rates target
        (consAfter rates target k) k hcond hb
      have hcons : (if |rates k - target| < 1 / 20
          then consAfter rates target k + 1 else 0) =
          consAfter rates target (k + 1) := rfl
      rw [hcons] at hr
      have hk1 : k + 1 < NIter.natAbs := by omega
      by_cases h5 : consAfter rates target (k + 1) < 5
      · have hrec := ih (k + 1) (by omega) hk1 h5
        rw [hr]
        refine ⟨hrec.1, by omega, hrec.2.2.1, ?_⟩
        intro j hj1 hj2
        rcases eq_or_lt_of_le hj1 with hjk | hj
        · subst hjk
          exact ⟨hc, hk⟩
        · exact hrec.2.2.2 j (by omega) hj2
      · have hstop : findLoop NIter rates target
            (consAfter rates target (k + 1)) (k + 1) = k + 1 := by
          apply findLoop_stop
          rintro (⟨_, hlt⟩ | hlt) <;> omega
        rw [hr, hstop]
        refine ⟨Or.inl (by omega), by omega, by omega, ?_⟩
        intro j hj1 hj2
        have hjk : j = k := by omega
        subst hjk
        exact ⟨hc, hk⟩

/-- Characterization of the loop for positive `NfindMRT2Iterations`:
exactly that many rounds, regardless of the consecutive counter. -/
theorem findLoop_pos_spec (NIter : ℤ) (rates : ℕ → ℚ) (target : ℚ)
    (hN : 0 < NIter) :
    ∀ n k cons, NIter.toNat - k ≤ n → k ≤ NIter.toNat →
      findLoop NIter rates target cons k = NIter.toNat := by
  intro n
  induction n with
  | zero =>
    intro k cons hfuel hk
    have hke : k = NIter.toNat := by omega
    subst hke
    apply findLoop_stop
    rintro (⟨hneg, _⟩ | hlt) <;> omega
  | succ n ih =>
    intro k cons hfuel hk
    rcases eq_or_lt_of_le hk with hke | hklt
    · subst hke
      apply findLoop_stop
      rintro (⟨hneg, _⟩ | hlt) <;> omega
    · have hcond : (NIter < 0 ∧ cons < 5) ∨ (k : ℤ) < NIter := by
        right
        omega
      have hb : ¬(NIter < 0 ∧ (NIter.natAbs : ℤ) ≤ (k : ℤ) + 1) := by
        rintro ⟨hneg, _⟩
        omega
      rw [findLoop_cont NIter rates target cons k hcond hb]
      exact ih (k + 1) _ (by omega) (by omega)

/-- C6: `findMRT2Step` performs no iterations when the trial move
exposes no adjustable step sizes; with `NfindMRT2Iterations < 0` it
stops at the first round where the consecutive-within-tolerance counter
has reached `MIN_CONS = 5` or the round count has reached
`|NfindMRT2Iterations|`, whichever happens first (every earlier round
satisfies neither condition); with `NfindMRT2Iterations > 0` it
performs exactly that many rounds. -/
theorem findMRT2Step_iterations (NIter : ℤ) (rates : ℕ → ℚ) (target : ℚ) :
    findMRT2Step false NIter rates target = 0 ∧
    (NIter < 0 →
      (5 ≤ consAfter rates target (findMRT2Step true NIter rates target) ∨
        findMRT2Step true NIter rates target = NIter.natAbs) ∧
      0 < findMRT2Step true NIter rates target ∧
      findMRT2Step true NIter rates target ≤ NIter.natAbs ∧
      ∀ j < findMRT2Step true NIter rates target,
        consAfter rates target j < 5 ∧ j < NIter.natAbs) ∧
    (0 < NIter → findMRT2Step true NIter rates target = NIter.toNat) := by
  refine ⟨rfl, ?_, ?_⟩
  · intro hN
    have h := findLoop_neg_spec NIter rates target hN NIter.natAbs 0
      (by omega) (by omega)
      (show consAfter rates target 0 < 5 by
        show (0 : ℕ) < 5
        norm_num)
    exact ⟨h.1, h.2.1, h.2.2.1, fun j hj => h.2.2.2 j (Nat.zero_le j) hj⟩
  · intro hN
    exact findLoop_pos_spec NIter rates target hN NIter.toNat 0 0
      (by omega) (by omega)

/-- Witness for C6: negative setting `−2` with rates at target (the cap
fires after two rounds), and positive setting `3` (exactly three
rounds). -/
theorem findMRT2Step_iterations_witness :
    ((-2 : ℤ) < 0 ∧
      ((5 ≤ consAfter (fun _ => (1 : ℚ) / 2) (1 / 2)
            (findMRT2Step true (-2) (fun _ => (1 : ℚ) / 2) (1 / 2)) ∨
          findMRT2Step true (-2) (fun _ => (1 : ℚ) / 2) (1 / 2) =
            ((-2 : ℤ)).natAbs) ∧
        0 < findMRT2Step true (-2) (fun _ => (1 : ℚ) / 2) (1 / 2) ∧
        findMRT2Step true (-2) (fun _ => (1 : ℚ) / 2) (1 / 2) ≤
          ((-2 : ℤ)).natAbs ∧
        ∀ j < findMRT2Step true (-2) (fun _ => (1 : ℚ) / 2) (1 / 2),
          consAfter (fun _ => (1 : ℚ) / 2) (1 / 2) j < 5 ∧
            j < ((-2 : ℤ)).natAbs)) ∧
    ((0 : ℤ) < 3 ∧
      findMRT2Step true 3 (fun _ => (1 : ℚ) / 2) (1 / 2) = (3 : ℤ).toNat) := by
  constructor
  · exact ⟨by norm_num,
      (findMRT2Step_iterations (-2) (fun _ => (1 : ℚ) / 2) (1 / 2)).2.1
        (by norm_num)⟩
  · exact ⟨by norm_num,
      (findMRT2Step_iterations 3 (fun _ => (1 : ℚ) / 2) (1 / 2)).2.2
        (by norm_num)⟩

end mci
